import Mathlib

/-!
Shallow embedding of the counting core of `count-md` (src/lib.rs).

The core is `count_with_options`: a single fold over the stream of Markdown
events, keeping a context `State` (which structural regions are open) and a
running total. The Markdown parser (pulldown-cmark), the HTML tokenizer
(xmlparser) and the Unicode word segmenter (unicode-segmentation) are
external collaborators; they are modelled as parameters (`Externals`): the
engine consumes an already-parsed list of events, a word-count function
`wc`, and a tokenizer producing per-token results.

`Options` is a `u16` bitflags value in the source; it is embedded as a
natural-number bit set with the exact bit layout of the source.
`State.blockquote_level` is a `u8` in the source; it is embedded as a `Nat`
with explicit wrapping arithmetic modulo 2^8 (the release-mode semantics of
`+=`/`-=` on `u8`).
-/

/-- Options bitflags (src/lib.rs lines 116-137): a `u16` bit set. -/
structure Options where
  bits : Nat
deriving DecidableEq

/-- Bit 0 (value 1) in the source. -/
def Options.IncludeInlineCode : Options := ⟨1⟩

/-- Bit 2 (value `1 << 2`) in the source; bit 1 is unused there. -/
def Options.IncludeBlockCode : Options := ⟨1 <<< 2⟩

/-- Bit 3 in the source. -/
def Options.IncludeTables : Options := ⟨1 <<< 3⟩

/-- Bit 4 in the source. -/
def Options.IncludeFootnotes : Options := ⟨1 <<< 4⟩

/-- Bit 5 in the source. -/
def Options.IncludeBlockHtml : Options := ⟨1 <<< 5⟩

/-- Bit 6 in the source. -/
def Options.IncludeBlockquotes : Options := ⟨1 <<< 6⟩

/-- Bit 7 in the source. -/
def Options.IncludeMetadata : Options := ⟨1 <<< 7⟩

/-- Bit 8 in the source. -/
def Options.IncludeHeadings : Options := ⟨1 <<< 8⟩

/-- Bitflags `contains`: all bits of `flag` are present in `o`. -/
def Options.contains (o flag : Options) : Bool :=
  o.bits &&& flag.bits == flag.bits

/-- The `DEFAULT` preset (src/lib.rs lines 129-135): the union of
InlineCode, Tables, Footnotes, BlockHtml and Headings. -/
def Options.DEFAULT : Options :=
  ⟨Options.IncludeInlineCode.bits
    ||| Options.IncludeTables.bits
    ||| Options.IncludeFootnotes.bits
    ||| Options.IncludeBlockHtml.bits
    ||| Options.IncludeHeadings.bits⟩

/-- The eight named toggles of the bitflags declaration. -/
def allToggles : List Options :=
  [Options.IncludeInlineCode, Options.IncludeBlockCode, Options.IncludeTables,
   Options.IncludeFootnotes, Options.IncludeBlockHtml, Options.IncludeBlockquotes,
   Options.IncludeMetadata, Options.IncludeHeadings]

/-- The set of named toggles enabled in `o1` is a subset of those enabled
in `o2`. -/
def toggleSubset (o1 o2 : Options) : Bool :=
  allToggles.all fun f => !o1.contains f || o2.contains f

/-- Context state (src/lib.rs lines 91-98). `blockquote_level` is a `u8`
in the source: it is kept as a `Nat` and every update is taken mod 2^8. -/
structure State where
  in_code_block : Bool
  blockquote_level : Nat
  in_metadata_block : Bool
  in_footnote : Bool
  in_table : Bool
  in_heading : Bool
deriving DecidableEq

/-- `State::in_blockquote` (src/lib.rs lines 110-113): `blockquote_level > 0`. -/
def State.in_blockquote (s : State) : Bool :=
  decide (s.blockquote_level > 0)

/-- `State::allowed_for` (src/lib.rs lines 101-108). -/
def State.allowed_for (s : State) (options : Options) : Bool :=
  (!s.in_code_block || options.contains Options.IncludeBlockCode)
    && (!s.in_blockquote || options.contains Options.IncludeBlockquotes)
    && (!s.in_metadata_block || options.contains Options.IncludeMetadata)
    && (!s.in_footnote || options.contains Options.IncludeFootnotes)
    && (!s.in_table || options.contains Options.IncludeTables)
    && (!s.in_heading || options.contains Options.IncludeHeadings)

/-- The spec's formula for `allowedFor` (spec §4.2), written exactly as the
spec states it, with `blockquoteDepth == 0` in the blockquote gate. -/
def allowedForSpec (s : State) (options : Options) : Bool :=
  (!s.in_code_block || options.contains Options.IncludeBlockCode)
    && (s.blockquote_level == 0 || options.contains Options.IncludeBlockquotes)
    && (!s.in_metadata_block || options.contains Options.IncludeMetadata)
    && (!s.in_footnote || options.contains Options.IncludeFootnotes)
    && (!s.in_table || options.contains Options.IncludeTables)
    && (!s.in_heading || options.contains Options.IncludeHeadings)

/-- Tag kinds the engine distinguishes. The source matches on pulldown-cmark
`Tag`/`TagEnd` values: the six tracked kinds each have an arm, and every
other tag kind falls into the `_ => \x7b\x7d` arm, modelled by `Other n`. -/
inductive TagKind where
  | CodeBlock
  | BlockQuote
  | MetadataBlock
  | FootnoteDefinition
  | Table
  | Heading
  | Other (id : Nat)
deriving DecidableEq

/-- Markdown events (pulldown-cmark `Event`), restricted to the payloads the
engine reads: text-bearing variants carry their string, tags carry their
kind. -/
inductive Event where
  | Text (t : String)
  | Code (t : String)
  | Start (tag : TagKind)
  | End (tag : TagKind)
  | Html (t : String)
  | InlineHtml (t : String)
  | FootnoteReference (label : String)
  | SoftBreak
  | HardBreak
  | Rule
  | TaskListMarker (checked : Bool)
deriving DecidableEq

/-- HTML tokens (xmlparser `Token`), restricted to what the engine reads:
`Text` tokens carry their text, every other token kind (element starts and
ends, attributes, comments, …) is `Other`. -/
inductive HtmlToken where
  | Text (t : String)
  | Other (t : String)
deriving DecidableEq

/-- External collaborators of the core: the Unicode word segmenter
(`unicode_words().count()`) and the HTML tokenizer, which yields a
per-token `Result` stream (xmlparser `Tokenizer` items are
`Result<Token, Error>`). -/
structure Externals where
  wc : String → Nat
  tokenize : String → List (Except String HtmlToken)

/-- The `Start(tag)` arm of the event loop (src/lib.rs lines 48-56). -/
def State.apply_start (s : State) (tag : TagKind) : State :=
  match tag with
  | TagKind.CodeBlock => { s with in_code_block := true }
  | TagKind.BlockQuote => { s with blockquote_level := (s.blockquote_level + 1) % 256 }
  | TagKind.MetadataBlock => { s with in_metadata_block := true }
  | TagKind.FootnoteDefinition => { s with in_footnote := true }
  | TagKind.Table => { s with in_table := true }
  | TagKind.Heading => { s with in_heading := true }
  | TagKind.Other _ => s

/-- The `End(tag)` arm of the event loop (src/lib.rs lines 58-66). The
decrement `blockquote_level -= 1` on a `u8` is wrapping subtraction,
embedded as `+ 255` mod 2^8. -/
def State.apply_end (s : State) (tag : TagKind) : State :=
  match tag with
  | TagKind.CodeBlock => { s with in_code_block := false }
  | TagKind.BlockQuote => { s with blockquote_level := (s.blockquote_level + 255) % 256 }
  | TagKind.MetadataBlock => { s with in_metadata_block := false }
  | TagKind.FootnoteDefinition => { s with in_footnote := false }
  | TagKind.Table => { s with in_table := false }
  | TagKind.Heading => { s with in_heading := false }
  | TagKind.Other _ => s

/-- The inner loop of the `Html(html)` arm (src/lib.rs lines 70-74):
`for token in Tokenizer::from(html).flatten() \x7b if Text add wc \x7d`,
folding over the per-token results and adding the word count of each
successfully produced `Text` token into the running count. -/
def htmlTokenFold (wc : String → Nat) (count : Nat)
    (tokens : List (Except String HtmlToken)) : Nat :=
  tokens.foldl
    (fun c token =>
      match token with
      | Except.ok (HtmlToken.Text text) => c + wc text
      | _ => c)
    count

/-- Successful text tokens: the tokens `.flatten()` keeps and the `if let
Token::Text` selects. -/
def okText : Except String HtmlToken → Option String
  | Except.ok (HtmlToken.Text t) => some t
  | _ => none

/-- One iteration of the event loop of `count_with_options`
(src/lib.rs lines 33-86): the `match event` body, acting on the pair
(state, running count). -/
def processEvent (ext : Externals) (options : Options)
    (acc : State × Nat) (event : Event) : State × Nat :=
  match event with
  | Event.Text t =>
      if acc.1.allowed_for options then (acc.1, acc.2 + ext.wc t) else acc
  | Event.Code t =>
      if options.contains Options.IncludeInlineCode then (acc.1, acc.2 + ext.wc t) else acc
  | Event.Start tag => (acc.1.apply_start tag, acc.2)
  | Event.End tag => (acc.1.apply_end tag, acc.2)
  | Event.Html html =>
      if options.contains Options.IncludeBlockHtml then
        (acc.1, htmlTokenFold ext.wc acc.2 (ext.tokenize html))
      else acc
  | Event.InlineHtml _ => acc
  | Event.FootnoteReference _ => acc
  | Event.SoftBreak => acc
  | Event.HardBreak => acc
  | Event.Rule => acc
  | Event.TaskListMarker _ => acc

/-- The all-false/zero initial state (src/lib.rs lines 13-20). -/
def initState : State :=
  { in_code_block := false, blockquote_level := 0, in_metadata_block := false,
    in_footnote := false, in_table := false, in_heading := false }

/-- `count_with_options` (src/lib.rs lines 12-89), over the event stream
produced by the external Markdown Event Source. -/
def count_with_options (ext : Externals) (events : List Event)
    (options : Options) : Nat :=
  (events.foldl (processEvent ext options) (initState, 0)).2

/-- `count` (src/lib.rs lines 7-9): `count_with_options` at the `DEFAULT`
preset. -/
def count (ext : Externals) (events : List Event) : Nat :=
  count_with_options ext events Options.DEFAULT

/-- The state component of one loop iteration: how the context state moves
on each event (the tag arms mutate it, all other arms leave it alone). -/
def stepState (s : State) (event : Event) : State :=
  match event with
  | Event.Start tag => s.apply_start tag
  | Event.End tag => s.apply_end tag
  | _ => s

/-- Modelled from the spec: the Markdown Event Source is an external
collaborator (spec §2, §6); on input with no structural markers it treats
the text as "a single flat paragraph of plain text" (spec §4.3), i.e. a
paragraph start tag, one text event carrying the raw text, and the
paragraph end tag. -/
def parseStructureFree (text : String) : List Event :=
  [Event.Start (TagKind.Other 0), Event.Text text, Event.End (TagKind.Other 0)]

/-- Ideal (unbounded) blockquote-depth scan of an event stream, `none` as
soon as a blockquote close arrives with ideal depth 0. `wellFormedBQ`
below is the well-formedness precondition of spec §3. -/
def bqScan : Nat → List Event → Option Nat
  | d, [] => some d
  | d, e :: rest =>
      if e = Event.Start TagKind.BlockQuote then bqScan (d + 1) rest
      else if e = Event.End TagKind.BlockQuote then
        if d = 0 then none else bqScan (d - 1) rest
      else bqScan d rest

/-- Every blockquote close event is preceded by a matching unclosed
blockquote open event. -/
def wellFormedBQ (events : List Event) : Bool :=
  (bqScan 0 events).isSome

/-- The ideal blockquote depth stays at or below `bound` throughout the
stream. -/
def bqDepthLE (bound : Nat) : Nat → List Event → Bool
  | _, [] => true
  | d, e :: rest =>
      if e = Event.Start TagKind.BlockQuote then
        if d + 1 ≤ bound then bqDepthLE bound (d + 1) rest else false
      else if e = Event.End TagKind.BlockQuote then
        bqDepthLE bound (d - 1) rest
      else bqDepthLE bound d rest

/-- The engine's `u8` level tracking, checking each decrement: follows
exactly the `blockquote_level` updates of `stepState` (wrapping mod 2^8)
and returns `false` as soon as a blockquote close event finds the stored
level at 0, i.e. as soon as the unsigned subtraction would underflow. -/
def u8ScanOK : Nat → List Event → Bool
  | _, [] => true
  | l, e :: rest =>
      if e = Event.Start TagKind.BlockQuote then u8ScanOK ((l + 1) % 256) rest
      else if e = Event.End TagKind.BlockQuote then
        if l = 0 then false else u8ScanOK ((l + 255) % 256) rest
      else u8ScanOK l rest

/-- A concrete executable word counter standing in for the external Unicode
segmenter in witnesses: counts maximal runs of non-space characters. -/
def wcChars : Bool → List Char → Nat
  | _, [] => 0
  | inWord, c :: rest =>
      if c = ' ' then wcChars false rest
      else (if inWord then 0 else 1) + wcChars true rest

/-- Word counter on strings, for concrete witnesses. -/
def simpleWC (t : String) : Nat := wcChars false t.toList

/-- Concrete externals for witnesses: the simple word counter and a
tokenizer returning no tokens. -/
def simpleExt : Externals := ⟨simpleWC, fun _ => []⟩

/-- A stream of `n` nested blockquote opens. -/
def deepBQ (n : Nat) : List Event :=
  List.replicate n (Event.Start TagKind.BlockQuote)

/-- The initial state admits text under every options value. -/
theorem initState_allowed (o : Options) : initState.allowed_for o = true := by
  simp [State.allowed_for, initState, State.in_blockquote]

/-- The HTML token fold equals the start count plus the word counts of the
successfully produced text tokens. -/
theorem htmlTokenFold_sum (wc : String → Nat) (tokens : List (Except String HtmlToken)) :
    ∀ c : Nat, htmlTokenFold wc c tokens = c + ((tokens.filterMap okText).map wc).sum := by
  induction tokens with
  | nil => intro c; simp [htmlTokenFold]
  | cons t rest ih =>
      intro c
      cases t with
      | error e =>
          show htmlTokenFold wc c rest = _
          simpa [okText] using ih c
      | ok tok =>
          cases tok with
          | Text s =>
              show htmlTokenFold wc (c + wc s) rest = _
              have h := ih (c + wc s)
              simp [okText] at h ⊢
              omega
          | Other s =>
              show htmlTokenFold wc c rest = _
              simpa [okText] using ih c

/-- The state component of one loop iteration is `stepState`, independent
of the options and of the running count. -/
theorem processEvent_fst (ext : Externals) (o : Options) (acc : State × Nat) (e : Event) :
    (processEvent ext o acc e).1 = stepState acc.1 e := by
  cases e <;> simp [processEvent, stepState] <;> split <;> rfl

/-- Claim C1: `allowed_for` computes exactly the spec's conjunction of the
six per-region gates, for every context state and every options value. -/
theorem claim_C1 (s : State) (o : Options) : s.allowed_for o = allowedForSpec s o := by
  obtain ⟨cb, lvl, mb, fn, tb, hd⟩ := s
  cases lvl <;> simp [State.allowed_for, allowedForSpec, State.in_blockquote]

/-- Claim C3: on input with no structural markers (modelled from the spec:
such text parses as one flat paragraph), the count is independent of the
options and equals the word segmenter's count on the raw text. -/
theorem claim_C3 (ext : Externals) (text : String) (o1 o2 : Options) :
    count_with_options ext (parseStructureFree text) o1
        = count_with_options ext (parseStructureFree text) o2
      ∧ count_with_options ext (parseStructureFree text) o1 = ext.wc text := by
  have h : ∀ o : Options, count_with_options ext (parseStructureFree text) o = ext.wc text := by
    intro o
    simp [count_with_options, parseStructureFree, processEvent, State.apply_start,
      State.apply_end, initState_allowed]
  exact ⟨by rw [h o1, h o2], h o1⟩

/-- Claim C5: an inline code event contributes its word count exactly when
`IncludeInlineCode` is enabled, for every context state — the structural
`allowed_for` gate is not consulted and the state is unchanged. -/
theorem claim_C5 (ext : Externals) (o : Options) (s : State) (c : Nat) (t : String) :
    processEvent ext o (s, c) (Event.Code t)
      = (s, if o.contains Options.IncludeInlineCode then c + ext.wc t else c) := by
  by_cases h : o.contains Options.IncludeInlineCode <;> simp [processEvent, h]

/-- Claim C6: a block HTML event contributes, when `IncludeBlockHtml` is
enabled, the word counts of exactly the successfully produced text tokens
of the tokenizer, and contributes nothing when it is disabled (the result
then does not depend on the tokenizer at all); the state is unchanged. -/
theorem claim_C6 (ext : Externals) (o : Options) (s : State) (c : Nat) (blob : String) :
    processEvent ext o (s, c) (Event.Html blob)
      = (s, if o.contains Options.IncludeBlockHtml
            then c + (((ext.tokenize blob).filterMap okText).map ext.wc).sum
            else c) := by
  by_cases h : o.contains Options.IncludeBlockHtml <;>
    simp [processEvent, h, htmlTokenFold_sum]

/-- Claim C7: the zero-argument form is `count_with_options` at `DEFAULT`,
and `DEFAULT` enables exactly InlineCode, Tables, Footnotes, BlockHtml and
Headings. -/
theorem claim_C7 (ext : Externals) (events : List Event) :
    count ext events = count_with_options ext events Options.DEFAULT
      ∧ Options.DEFAULT.contains Options.IncludeInlineCode = true
      ∧ Options.DEFAULT.contains Options.IncludeTables = true
      ∧ Options.DEFAULT.contains Options.IncludeFootnotes = true
      ∧ Options.DEFAULT.contains Options.IncludeBlockHtml = true
      ∧ Options.DEFAULT.contains Options.IncludeHeadings = true
      ∧ Options.DEFAULT.contains Options.IncludeBlockCode = false
      ∧ Options.DEFAULT.contains Options.IncludeBlockquotes = false
      ∧ Options.DEFAULT.contains Options.IncludeMetadata = false :=
  ⟨rfl, by decide, by decide, by decide, by decide, by decide, by decide, by decide,
    by decide⟩

/-- Claim C10: erroneous tokens in the HTML token stream are silently
discarded — inserting an error anywhere leaves the fold unchanged — and the
contribution of a blob is the start count plus the word counts of exactly
the successfully produced text tokens. -/
theorem claim_C10 (wc : String → Nat) (c : Nat)
    (pre post : List (Except String HtmlToken)) (e : String) :
    htmlTokenFold wc c (pre ++ Except.error e :: post) = htmlTokenFold wc c (pre ++ post)
      ∧ htmlTokenFold wc c (pre ++ post)
          = c + (((pre ++ post).filterMap okText).map wc).sum := by
  constructor
  · rw [htmlTokenFold_sum, htmlTokenFold_sum]
    simp [okText]
  · exact htmlTokenFold_sum wc _ c

/-- `contains` is monotone along `toggleSubset` on the named toggles. -/
theorem contains_mono (o1 o2 : Options) (h : toggleSubset o1 o2 = true)
    (f : Options) (hf : f ∈ allToggles) (h1 : o1.contains f = true) :
    o2.contains f = true := by
  have hall := List.all_eq_true.mp h f hf
  simpa [h1] using hall

/-- A per-gate disjunction is monotone along `toggleSubset`. -/
theorem or_contains_mono (o1 o2 : Options) (h : toggleSubset o1 o2 = true)
    (f : Options) (hf : f ∈ allToggles) (b : Bool)
    (hb : (b || o1.contains f) = true) : (b || o2.contains f) = true := by
  cases b with
  | true => simp
  | false =>
      simp only [Bool.false_or] at hb
      simp [contains_mono o1 o2 h f hf hb]

/-- `allowed_for` is monotone along `toggleSubset`: enabling more toggles
can only keep a state admitted. -/
theorem allowed_for_mono (o1 o2 : Options) (h : toggleSubset o1 o2 = true)
    (s : State) (h1 : s.allowed_for o1 = true) : s.allowed_for o2 = true := by
  simp only [State.allowed_for, Bool.and_eq_true] at h1 ⊢
  obtain ⟨⟨⟨⟨⟨a, b⟩, c⟩, d⟩, e⟩, f⟩ := h1
  exact ⟨⟨⟨⟨⟨or_contains_mono o1 o2 h Options.IncludeBlockCode (by decide) _ a,
    or_contains_mono o1 o2 h Options.IncludeBlockquotes (by decide) _ b⟩,
    or_contains_mono o1 o2 h Options.IncludeMetadata (by decide) _ c⟩,
    or_contains_mono o1 o2 h Options.IncludeFootnotes (by decide) _ d⟩,
    or_contains_mono o1 o2 h Options.IncludeTables (by decide) _ e⟩,
    or_contains_mono o1 o2 h Options.IncludeHeadings (by decide) _ f⟩

/-- The count component of one loop iteration is monotone along
`toggleSubset`, for any starting counts in the same order. -/
theorem processEvent_snd_mono (ext : Externals) (o1 o2 : Options)
    (h : toggleSubset o1 o2 = true) (s : State) (c1 c2 : Nat) (hc : c1 ≤ c2)
    (e : Event) :
    (processEvent ext o1 (s, c1) e).2 ≤ (processEvent ext o2 (s, c2) e).2 := by
  cases e with
  | Text t =>
      by_cases h1 : s.allowed_for o1 = true
      · have h2 := allowed_for_mono o1 o2 h s h1
        simp [processEvent, h1, h2] <;> omega
      · by_cases h2 : s.allowed_for o2 = true <;>
          simp [processEvent, h1, h2] <;> omega
  | Code t =>
      by_cases h1 : o1.contains Options.IncludeInlineCode = true
      · have h2 : o2.contains Options.IncludeInlineCode = true :=
          contains_mono o1 o2 h Options.IncludeInlineCode (by decide) h1
        simp [processEvent, h1, h2] <;> omega
      · by_cases h2 : o2.contains Options.IncludeInlineCode = true <;>
          simp [processEvent, h1, h2] <;> omega
  | Html blob =>
      by_cases h1 : o1.contains Options.IncludeBlockHtml = true
      · have h2 : o2.contains Options.IncludeBlockHtml = true :=
          contains_mono o1 o2 h Options.IncludeBlockHtml (by decide) h1
        simp [processEvent, h1, h2, htmlTokenFold_sum] <;> omega
      · by_cases h2 : o2.contains Options.IncludeBlockHtml = true <;>
          simp [processEvent, h1, h2, htmlTokenFold_sum] <;> omega
  | Start tag => simpa [processEvent] using hc
  | End tag => simpa [processEvent] using hc
  | InlineHtml t => simpa [processEvent] using hc
  | FootnoteReference l => simpa [processEvent] using hc
  | SoftBreak => simpa [processEvent] using hc
  | HardBreak => simpa [processEvent] using hc
  | Rule => simpa [processEvent] using hc
  | TaskListMarker b => simpa [processEvent] using hc

/-- The whole fold is monotone along `toggleSubset`, from any shared state
and ordered counts. -/
theorem run_mono (ext : Externals) (o1 o2 : Options) (h : toggleSubset o1 o2 = true) :
    ∀ (events : List Event) (s : State) (c1 c2 : Nat), c1 ≤ c2 →
      (events.foldl (processEvent ext o1) (s, c1)).2
        ≤ (events.foldl (processEvent ext o2) (s, c2)).2 := by
  intro events
  induction events with
  | nil => intro s c1 c2 hc; simpa using hc
  | cons e rest ih =>
      intro s c1 c2 hc
      rw [List.foldl_cons, List.foldl_cons]
      have e1 : processEvent ext o1 (s, c1) e
          = (stepState s e, (processEvent ext o1 (s, c1) e).2) := by
        rw [Prod.ext_iff]
        exact ⟨processEvent_fst ext o1 (s, c1) e, rfl⟩
      have e2 : processEvent ext o2 (s, c2) e
          = (stepState s e, (processEvent ext o2 (s, c2) e).2) := by
        rw [Prod.ext_iff]
        exact ⟨processEvent_fst ext o2 (s, c2) e, rfl⟩
      rw [e1, e2]
      exact ih (stepState s e) _ _ (processEvent_snd_mono ext o1 o2 h s c1 c2 hc e)

/-- Claim C4: for a fixed event stream, enabling more toggles never
decreases the count. -/
theorem claim_C4 (ext : Externals) (events : List Event) (o1 o2 : Options)
    (h : toggleSubset o1 o2 = true) :
    count_with_options ext events o1 ≤ count_with_options ext events o2 :=
  run_mono ext o1 o2 h events initState 0 0 (Nat.le_refl 0)

/-- Witness for claim C4 at a concrete input: no toggles versus the
default preset on a single inline-code event. -/
theorem claim_C4_witness :
    toggleSubset ⟨0⟩ Options.DEFAULT = true
      ∧ count_with_options simpleExt [Event.Code "hi there"] ⟨0⟩
          ≤ count_with_options simpleExt [Event.Code "hi there"] Options.DEFAULT :=
  ⟨by decide,
    claim_C4 simpleExt [Event.Code "hi there"] ⟨0⟩ Options.DEFAULT (by decide)⟩

/-- How each event moves the stored level: only blockquote open/close
events touch it, with wrapping mod 2^8 arithmetic. -/
theorem stepState_level (s : State) (e : Event) :
    (stepState s e).blockquote_level
      = if e = Event.Start TagKind.BlockQuote then (s.blockquote_level + 1) % 256
        else if e = Event.End TagKind.BlockQuote then (s.blockquote_level + 255) % 256
        else s.blockquote_level := by
  cases e with
  | Start tag => cases tag <;> simp [stepState, State.apply_start]
  | End tag => cases tag <;> simp [stepState, State.apply_end]
  | Text t => simp [stepState]
  | Code t => simp [stepState]
  | Html t => simp [stepState]
  | InlineHtml t => simp [stepState]
  | FootnoteReference l => simp [stepState]
  | SoftBreak => simp [stepState]
  | HardBreak => simp [stepState]
  | Rule => simp [stepState]
  | TaskListMarker b => simp [stepState]

set_option maxRecDepth 8192 in
/-- Counterexample to claim C2 as stated: at stored level 255 — reachable
by 255 nested blockquote opens — a further blockquote open does not
increment the level by exactly 1 (it wraps to 0). -/
theorem claim_C2_counterexample :
    ((deepBQ 255).foldl stepState initState).blockquote_level = 255
      ∧ (stepState ((deepBQ 255).foldl stepState initState)
            (Event.Start TagKind.BlockQuote)).blockquote_level
          ≠ ((deepBQ 255).foldl stepState initState).blockquote_level + 1 := by
  decide

/-- Claim C2 as amended: for every state with a `u8`-representable level,
each tracked StartTag sets exactly its flag true and the matching EndTag
sets it false; a blockquote open increments the level by exactly 1 except
at 255 where it wraps to 0, and a blockquote close decrements it by
exactly 1 except at 0 where it wraps to 255; every other tag kind leaves
the state completely unchanged. -/
theorem claim_C2_amended (s : State) (n : Nat) (hs : s.blockquote_level < 256) :
    s.apply_start TagKind.CodeBlock = { s with in_code_block := true }
      ∧ s.apply_end TagKind.CodeBlock = { s with in_code_block := false }
      ∧ s.apply_start TagKind.MetadataBlock = { s with in_metadata_block := true }
      ∧ s.apply_end TagKind.MetadataBlock = { s with in_metadata_block := false }
      ∧ s.apply_start TagKind.FootnoteDefinition = { s with in_footnote := true }
      ∧ s.apply_end TagKind.FootnoteDefinition = { s with in_footnote := false }
      ∧ s.apply_start TagKind.Table = { s with in_table := true }
      ∧ s.apply_end TagKind.Table = { s with in_table := false }
      ∧ s.apply_start TagKind.Heading = { s with in_heading := true }
      ∧ s.apply_end TagKind.Heading = { s with in_heading := false }
      ∧ s.apply_start TagKind.BlockQuote
          = { s with blockquote_level :=
                if s.blockquote_level = 255 then 0 else s.blockquote_level + 1 }
      ∧ s.apply_end TagKind.BlockQuote
          = { s with blockquote_level :=
                if s.blockquote_level = 0 then 255 else s.blockquote_level - 1 }
      ∧ s.apply_start (TagKind.Other n) = s
      ∧ s.apply_end (TagKind.Other n) = s := by
  obtain ⟨cb, lvl, mb, fn, tb, hd⟩ := s
  simp only [State.blockquote_level] at hs
  refine ⟨rfl, rfl, rfl, rfl, rfl, rfl, rfl, rfl, rfl, rfl, ?_, ?_, rfl, rfl⟩
  · simp [State.apply_start, State.mk.injEq]
    split <;> omega
  · simp [State.apply_end, State.mk.injEq]
    split <;> omega

/-- Witness for claim C2 as amended, at level 5: a blockquote open takes
the level to 6 and a blockquote close takes it to 4. -/
theorem claim_C2_witness :
    (State.mk false 5 false false false false).apply_start TagKind.BlockQuote
        = State.mk false 6 false false false false
      ∧ (State.mk false 5 false false false false).apply_end TagKind.BlockQuote
        = State.mk false 4 false false false false := by
  obtain ⟨-, -, -, -, -, -, -, -, -, -, hbqs, hbqe, -, -⟩ :=
    claim_C2_amended (State.mk false 5 false false false false) 0 (by decide)
  exact ⟨hbqs.trans (by decide), hbqe.trans (by decide)⟩

/-- Main induction for the blockquote-depth analysis: from any state whose
stored level is u8-representable and equal to the ideal depth, a
well-formed stream whose ideal depth stays at or below 255 keeps every
decrement applied to a positive stored level, and the stored level tracks
the ideal depth exactly. -/
theorem u8Scan_aux :
    ∀ (events : List Event) (s : State),
      s.blockquote_level ≤ 255 →
      (bqScan s.blockquote_level events).isSome = true →
      bqDepthLE 255 s.blockquote_level events = true →
      u8ScanOK s.blockquote_level events = true
        ∧ bqScan s.blockquote_level events
            = some ((events.foldl stepState s).blockquote_level) := by
  intro events
  induction events with
  | nil =>
      intro s h1 h2 h3
      exact ⟨rfl, rfl⟩
  | cons e rest ih =>
      intro s h1 h2 h3
      by_cases hS : e = Event.Start TagKind.BlockQuote
      · subst hS
        rw [List.foldl_cons]
        simp [bqScan] at h2
        by_cases hb : s.blockquote_level + 1 ≤ 255
        · simp [bqDepthLE, hb] at h3
          have hmod : (s.blockquote_level + 1) % 256 = s.blockquote_level + 1 :=
            Nat.mod_eq_of_lt (by omega)
          have hlv : (stepState s (Event.Start TagKind.BlockQuote)).blockquote_level
              = s.blockquote_level + 1 := by
            simp [stepState, State.apply_start, hmod]
          obtain ⟨hu, hsc⟩ := ih (stepState s (Event.Start TagKind.BlockQuote))
            (by rw [hlv]; omega) (by rw [hlv]; exact h2) (by rw [hlv]; exact h3)
          rw [hlv] at hu hsc
          constructor
          · simpa [u8ScanOK, hmod] using hu
          · simpa [bqScan] using hsc
        · simp [bqDepthLE, hb] at h3
      · by_cases hE : e = Event.End TagKind.BlockQuote
        · subst hE
          rw [List.foldl_cons]
          simp [bqScan] at h2
          by_cases h0 : s.blockquote_level = 0
          · simp [h0] at h2
          · simp [h0] at h2
            simp [bqDepthLE] at h3
            have hmod : (s.blockquote_level + 255) % 256 = s.blockquote_level - 1 := by
              omega
            have hlv : (stepState s (Event.End TagKind.BlockQuote)).blockquote_level
                = s.blockquote_level - 1 := by
              simp [stepState, State.apply_end, hmod]
            obtain ⟨hu, hsc⟩ := ih (stepState s (Event.End TagKind.BlockQuote))
              (by rw [hlv]; omega) (by rw [hlv]; exact h2) (by rw [hlv]; exact h3)
            rw [hlv] at hu hsc
            constructor
            · simpa [u8ScanOK, h0, hmod] using hu
            · simpa [bqScan, h0] using hsc
        · rw [List.foldl_cons]
          simp [bqScan, hS, hE] at h2
          simp [bqDepthLE, hS, hE] at h3
          have hlv : (stepState s e).blockquote_level = s.blockquote_level := by
            rw [stepState_level]
            simp [hS, hE]
          obtain ⟨hu, hsc⟩ := ih (stepState s e)
            (by rw [hlv]; exact h1) (by rw [hlv]; exact h2) (by rw [hlv]; exact h3)
          rw [hlv] at hu hsc
          constructor
          · simpa [u8ScanOK, hS, hE] using hu
          · simpa [bqScan, hS, hE] using hsc

set_option maxRecDepth 8192 in
/-- Counterexample to claim C8 as stated: a well-formed stream of 256
nested blockquote opens followed by one close wraps the stored `u8` level
to 0, so the close's decrement is applied to a stored 0 and underflows —
well-formedness alone does not make the error branch unreachable. -/
theorem claim_C8_counterexample :
    wellFormedBQ (deepBQ 256 ++ [Event.End TagKind.BlockQuote]) = true
      ∧ u8ScanOK 0 (deepBQ 256 ++ [Event.End TagKind.BlockQuote]) = false := by
  decide

/-- Claim C8 as amended: if the event stream is well-formed and its
blockquote nesting depth never exceeds 255, then every decrement of the
stored level is applied to a strictly positive value (no unsigned
underflow, the error branch is unreachable), and the stored level tracks
the ideal blockquote depth exactly throughout the counting pass. -/
theorem claim_C8_amended (events : List Event)
    (h1 : wellFormedBQ events = true) (h2 : bqDepthLE 255 0 events = true) :
    u8ScanOK 0 events = true
      ∧ bqScan 0 events = some ((events.foldl stepState initState).blockquote_level) :=
  u8Scan_aux events initState (by decide) h1 h2

/-- Witness for claim C8 as amended on a concrete well-formed stream: one
blockquote containing text. -/
theorem claim_C8_witness :
    u8ScanOK 0 [Event.Start TagKind.BlockQuote, Event.Text "quoted words",
        Event.End TagKind.BlockQuote] = true
      ∧ bqScan 0 [Event.Start TagKind.BlockQuote, Event.Text "quoted words",
            Event.End TagKind.BlockQuote]
          = some (([Event.Start TagKind.BlockQuote, Event.Text "quoted words",
              Event.End TagKind.BlockQuote].foldl stepState initState).blockquote_level) :=
  claim_C8_amended
    [Event.Start TagKind.BlockQuote, Event.Text "quoted words",
      Event.End TagKind.BlockQuote]
    (by decide) (by decide)

set_option maxRecDepth 8192 in
/-- Claim C9: the `u8` level faithfully tracks up to 255 open blockquotes
(255 opens give stored level 255), the 256th nested open wraps the level
to 0 mod 2^8, and the inclusion decision is then wrong: with blockquotes
excluded, text under 256 open blockquotes is counted (total 1) while text
under 255 open blockquotes is correctly excluded (total 0). -/
theorem claim_C9 :
    ((deepBQ 255).foldl stepState initState).blockquote_level = 255
      ∧ ((deepBQ 256).foldl stepState initState).blockquote_level = 0
      ∧ count_with_options simpleExt (deepBQ 256 ++ [Event.Text "hello"]) ⟨0⟩ = 1
      ∧ count_with_options simpleExt (deepBQ 255 ++ [Event.Text "hello"]) ⟨0⟩ = 0 := by
  decide
